import Mathlib

/-!
Shallow embedding of the download engine of a BitTorrent client
(sources: src/lib.rs, src/peer.rs, src/piece.rs, src/torrent.rs,
src/download.rs), together with theorems checking the spec's claims.

Bytes are modelled as `Nat` (values < 256 in well-formed data); byte
buffers as `List Nat`; fallible operations return `Option` or `Except`;
panics (`expect` / `assert!`) are modelled as `none` or a dedicated
error constructor.
-/

set_option maxHeartbeats 1000000

/-- u32::from_be_bytes over a 4-byte big-endian list (foldl accumulates
most-significant byte first). -/
def be32 (bytes : List Nat) : Nat :=
  bytes.foldl (fun acc b => acc * 256 + b) 0

/-- u32::to_be_bytes: the 4 big-endian bytes of a value < 2^32. -/
def u32be (n : Nat) : List Nat :=
  [n / 2 ^ 24 % 256, n / 2 ^ 16 % 256, n / 2 ^ 8 % 256, n % 256]

theorem be32_u32be (n : Nat) (h : n < 2 ^ 32) : be32 (u32be n) = n := by
  simp only [u32be, be32, List.foldl]
  omega

theorem u32be_length (n : Nat) : (u32be n).length = 4 := rfl

/-- lib.rs: `pub const BLOCK_MAX: usize = 1 << 14`. -/
def BLOCK_MAX : Nat := 1 <<< 14

namespace peer

/-- peer.rs `MessageTag`: the nine known wire-message tags. -/
inductive MessageTag where
  | Choke
  | Unchoke
  | Interested
  | NotInterested
  | Have
  | Bitfield
  | Request
  | Piece
  | Cancel
deriving DecidableEq, Repr

/-- The `repr(u8)` discriminant of each tag (peer.rs tag values 0..8). -/
def MessageTag.toByte : MessageTag → Nat
  | .Choke => 0
  | .Unchoke => 1
  | .Interested => 2
  | .NotInterested => 3
  | .Have => 4
  | .Bitfield => 5
  | .Request => 6
  | .Piece => 7
  | .Cancel => 8

/-- The tag-byte match in `MessageFramer::decode` (peer.rs lines 431-447):
bytes 0..8 map to tags, anything else is an unknown-tag error. -/
def MessageTag.ofByte : Nat → Option MessageTag
  | 0 => some .Choke
  | 1 => some .Unchoke
  | 2 => some .Interested
  | 3 => some .NotInterested
  | 4 => some .Have
  | 5 => some .Bitfield
  | 6 => some .Request
  | 7 => some .Piece
  | 8 => some .Cancel
  | _ => none

theorem MessageTag.ofByte_toByte (t : MessageTag) : MessageTag.ofByte t.toByte = some t := by
  cases t <;> rfl

/-- peer.rs `Message`: a tag plus an opaque payload. -/
structure Message where
  tag : MessageTag
  payload : List Nat
deriving DecidableEq, Repr

/-- peer.rs: `const MAX: usize = 1 << 16`. -/
def MAX : Nat := 1 <<< 16

namespace MessageFramer

/-- `MessageFramer::encode` (peer.rs lines 459-484): reject frames whose
tag + payload exceed `MAX` bytes, otherwise emit the 4-byte big-endian
length (payload length + 1), the tag byte, and the payload. -/
def encode (item : Message) : Except String (List Nat) :=
  if item.payload.length + 1 > MAX then
    .error "frame too large"
  else
    .ok (u32be (item.payload.length + 1) ++ item.tag.toByte :: item.payload)

/-- `MessageFramer::decode` (peer.rs lines 384-456) as a pure function on
the accumulated input buffer. Returns `.ok (none, src)` for "need more
bytes" (buffer possibly advanced past keep-alives), `.ok (some m, rest)`
for a decoded message with the remaining buffer, `.error` for a protocol
error. A zero length marker is a heartbeat: advance 4 bytes and retry. -/
def decode (src : List Nat) : Except String (Option Message × List Nat) :=
  if src.length < 4 then
    .ok (none, src)
  else
    let length := be32 (src.take 4)
    if length = 0 then
      decode (src.drop 4)
    else if src.length < 5 then
      .ok (none, src)
    else if length > MAX then
      .error "frame too large"
    else if src.length < 4 + length then
      .ok (none, src)
    else
      match MessageTag.ofByte (src.getD 4 0) with
      | none => .error "unknown message type"
      | some tag =>
        let data := if src.length > 5 then (src.drop 5).take (length - 1) else []
        .ok (some { tag := tag, payload := data }, src.drop (4 + length))
termination_by src.length
decreasing_by
  simp only [List.length_drop]
  omega

/-- Shared helper: decoding an exact encoded frame yields the message back
with an empty remaining buffer. -/
theorem decode_encode_frame (t : MessageTag) (p : List Nat) (h : p.length + 1 ≤ MAX) :
    MessageFramer.decode (u32be (p.length + 1) ++ t.toByte :: p) =
      .ok (some { tag := t, payload := p }, []) := by
  have hMAX : MAX = 65536 := rfl
  rw [MessageFramer.decode]
  have hlen : (u32be (p.length + 1) ++ t.toByte :: p).length = 5 + p.length := by
    simp [u32be]
    omega
  have htake : (u32be (p.length + 1) ++ t.toByte :: p).take 4 = u32be (p.length + 1) := by
    simp [u32be, List.take]
  have hbe : be32 ((u32be (p.length + 1) ++ t.toByte :: p).take 4) = p.length + 1 := by
    rw [htake]
    exact be32_u32be _ (by omega)
  have hgetD : (u32be (p.length + 1) ++ t.toByte :: p).getD 4 0 = t.toByte := by
    simp [u32be, List.getD]
  have hdroplen : (u32be (p.length + 1) ++ t.toByte :: p).drop (4 + (p.length + 1)) = [] := by
    apply List.drop_eq_nil_of_le
    omega
  simp only [hlen, hbe, hgetD, hdroplen, MessageTag.ofByte_toByte, hMAX]
  rw [if_neg (by omega), if_neg (by omega), if_neg (by omega), if_neg (by omega),
    if_neg (by omega)]
  cases p with
  | nil => simp
  | cons hd tl =>
    have hdrop5 : (u32be (tl.length + 1 + 1) ++ t.toByte :: hd :: tl).drop 5 = hd :: tl := by
      simp [u32be, List.drop]
    simp only [List.length_cons, hdrop5]
    rw [if_pos (by omega)]
    have htl : tl.length + 1 + 1 - 1 = (hd :: tl).length := by simp
    rw [htl, List.take_length]

/-- Shared helper: when the guard passes, `encode` emits exactly the
length-prefixed frame. -/
theorem encode_ok (m : Message) (h : m.payload.length + 1 ≤ MAX) :
    MessageFramer.encode m = .ok (u32be (m.payload.length + 1) ++ m.tag.toByte :: m.payload) := by
  rw [MessageFramer.encode, if_neg (by omega)]

/-- Shared helper: a 4-byte zero length marker (keep-alive) is silently
consumed and decoding continues on the rest of the buffer. -/
theorem decode_keepalive (buf : List Nat) :
    MessageFramer.decode (0 :: 0 :: 0 :: 0 :: buf) = MessageFramer.decode buf := by
  rw [MessageFramer.decode]
  have h4 : ¬ ((0 :: 0 :: 0 :: 0 :: buf).length < 4) := by simp
  rw [if_neg h4]
  simp [be32, List.take, List.drop]

end MessageFramer

/-- peer.rs `Bitfield`: the raw bitfield payload received at session
establishment. -/
structure Bitfield where
  payload : List Nat
deriving DecidableEq, Repr

/-- u8::rotate_right for byte values: rotate the 8-bit pattern right by
`n` places. -/
def u8RotateRight (x n : Nat) : Nat :=
  ((x % 256) >>> (n % 8)) ||| ((x % 256) <<< ((8 - n % 8) % 8)) % 256

/-- `Bitfield::has_piece` (peer.rs lines 200-207): byte `piece_i / 8`,
mask `1u8.rotate_right(bit_i + 1)` with `bit_i = piece_i % 8`; an index
whose byte is out of range yields false. -/
def Bitfield.has_piece (bf : Bitfield) (piece_i : Nat) : Bool :=
  let byte_i := piece_i / 8
  let bit_i := piece_i % 8
  match bf.payload.get? byte_i with
  | none => false
  | some byte => byte &&& u8RotateRight 1 (bit_i + 1) != 0

/-- `Bitfield::from_payload` (peer.rs lines 219-221). -/
def Bitfield.from_payload (payload : List Nat) : Bitfield :=
  { payload := payload }

/-- peer.rs `Peer`: the per-connection state the embedding needs (the
socket address and framed stream are I/O handles and are not modelled). -/
structure Peer where
  bitfield : Bitfield
  choked : Bool
deriving DecidableEq, Repr

/-- `Peer::has_piece` (peer.rs lines 54-56). -/
def Peer.has_piece (p : Peer) (piece_i : Nat) : Bool :=
  p.bitfield.has_piece piece_i

/-- peer.rs `Request`: three 4-byte big-endian fields. The Rust struct
stores the big-endian byte arrays and the accessors decode them; the
embedding stores the decoded values (arguments are u32, so < 2^32). -/
structure Request where
  index : Nat
  begin : Nat
  length : Nat
deriving DecidableEq, Repr

/-- `Request::new` (peer.rs lines 289-295). -/
def Request.new (index begin length : Nat) : Request :=
  { index := index, begin := begin, length := length }

/-- peer.rs wire `Piece` view: two 4-byte big-endian header fields
followed by the block bytes. -/
structure Piece where
  index : Nat
  begin : Nat
  block : List Nat
deriving DecidableEq, Repr

/-- `size_of::<Piece<()>>()`: the two `[u8; 4]` header fields. -/
def Piece.PIECE_LEAD : Nat := 8

/-- `Piece::ref_from_bytes` (peer.rs lines 338-353): `None` when the
input is shorter than the 8-byte header, otherwise a view whose `index`
and `begin` decode bytes 0..4 and 4..8 big-endian and whose `block` is
the remaining bytes. -/
def Piece.ref_from_bytes (data : List Nat) : Option Piece :=
  if data.length < Piece.PIECE_LEAD then
    none
  else
    some { index := be32 (data.take 4)
           begin := be32 ((data.drop 4).take 4)
           block := data.drop Piece.PIECE_LEAD }

/-- The block-size computation in `Peer::participate` (peer.rs lines
115-124): the final block is the piece length's remainder modulo
`BLOCK_MAX` (or a full block when the piece length divides evenly). -/
def blockSize (piece_size nblocks block : Nat) : Nat :=
  if block = nblocks - 1 then
    let md := piece_size % BLOCK_MAX
    if md = 0 then BLOCK_MAX else md
  else
    BLOCK_MAX

/-- The request built in `Peer::participate` (peer.rs lines 126-130):
`Request::new(piece_i as u32, (block * BLOCK_MAX) as u32, block_size as
u32)`; the `as u32` casts truncate modulo 2^32. -/
def participateRequest (piece_i piece_size nblocks block : Nat) : Request :=
  Request.new (piece_i % 2 ^ 32) (block * BLOCK_MAX % 2 ^ 32)
    (blockSize piece_size nblocks block % 2 ^ 32)

/-- The session state a `Peer::participate` call threads through its
loops: the peer's choked flag and the pending block indices in the
shared work channel. -/
structure ParticipateState where
  choked : Bool
  workQueue : List Nat
deriving DecidableEq, Repr

/-- Where control goes at the top of the `'task` loop (peer.rs lines
76-111): while choked, read messages in the unchoke wait loop; otherwise
pull the next block from the work channel. -/
inductive TaskEntry where
  | chokedWait
  | pullWork
deriving DecidableEq, Repr

def taskLoopEntry (st : ParticipateState) : TaskEntry :=
  if st.choked then .chokedWait else .pullWork

/-- Outcome of handling one message in the unchoke wait loop (peer.rs
lines 77-110). -/
inductive ChokedStep where
  | unchoked (st : ParticipateState)
  | stayChoked (st : ParticipateState)
  | fail (e : String)
deriving DecidableEq, Repr

/-- The match on the incoming message while choked (peer.rs lines
84-109). `assert!(unchoke.payload.is_empty())` is modelled as failure on
a non-empty payload. -/
def onMessageWhileChoked (st : ParticipateState) (m : Message) : ChokedStep :=
  match m.tag with
  | .Unchoke =>
    if m.payload = [] then .unchoked { st with choked := false }
    else .fail "assert failed: unchoke payload not empty"
  | .Have => .stayChoked st
  | .Interested | .NotInterested | .Request | .Cancel => .stayChoked st
  | .Piece => .stayChoked st
  | .Choke => .fail "peer sent unchoke while unchoked"
  | .Bitfield => .fail "peer sent bitfield after handshake has been completed"

/-- Outcome of handling one message while a request for `block` is
outstanding (peer.rs lines 140-186). -/
inductive RequestWaitStep where
  | continueTask (st : ParticipateState)
  | acceptedBlock (st : ParticipateState) (m : Message)
  | keepWaiting (st : ParticipateState)
  | fail (e : String)
deriving DecidableEq, Repr

/-- The match on the incoming message between sending
`Request(piece_i, block * BLOCK_MAX, block_size)` and accepting the
matching `Piece` (peer.rs lines 149-185). On `Choke` the choked flag is
set, the in-flight block is resubmitted to the work channel, and control
returns to the top of the `'task` loop. -/
def onMessageAwaitingPiece (st : ParticipateState) (piece_i piece_size nblocks block : Nat)
    (m : Message) : RequestWaitStep :=
  match m.tag with
  | .Choke =>
    if m.payload = [] then
      .continueTask { choked := true, workQueue := st.workQueue ++ [block] }
    else .fail "assert failed: choke payload not empty"
  | .Piece =>
    match Piece.ref_from_bytes m.payload with
    | none => .fail "always get all Piece response fields from peer"
    | some piece =>
      if piece.index ≠ piece_i ∨ piece.begin ≠ block * BLOCK_MAX then
        .keepWaiting st
      else if piece.block.length = blockSize piece_size nblocks block then
        .acceptedBlock st m
      else .fail "assert failed: block length"
  | .Have => .keepWaiting st
  | .Interested | .NotInterested | .Request | .Cancel => .keepWaiting st
  | .Unchoke => .fail "peer sent unchoke while unchoked"
  | .Bitfield => .fail "peer sent bitfield after handshake has been completed"

end peer

namespace torrent

/-- torrent.rs `File`: length in bytes and path segments. -/
structure File where
  length : Nat
  path : List String
deriving DecidableEq, Repr

/-- torrent.rs `Keys`: single-file or multi-file torrent. -/
inductive Keys where
  | SingleFile (length : Nat)
  | MultiFile (files : List File)
deriving DecidableEq, Repr

/-- torrent.rs `Info`: piece length, the per-piece 20-byte SHA-1 hashes,
and the file keys. -/
structure Info where
  name : String
  plength : Nat
  pieces : List (List Nat)
  keys : Keys
deriving DecidableEq, Repr

/-- torrent.rs `Torrent` (the announce URL is not needed here). -/
structure Torrent where
  info : Info
deriving DecidableEq, Repr

/-- `Torrent::length` (torrent.rs lines 51-56): the single file length,
or the sum of all file lengths. -/
def Torrent.length (t : Torrent) : Nat :=
  match t.info.keys with
  | .SingleFile length => length
  | .MultiFile files => (files.map File.length).sum

end torrent

namespace piece

/-- piece.rs `Piece`: the piece descriptor. The peer set is a
`HashSet<usize>` whose iteration order is randomized; the embedding
records one iteration order as a list, so `peers.length` is the set's
cardinality. -/
structure Piece where
  peers : List Nat
  piece_i : Nat
  length : Nat
  hash : List Nat
deriving DecidableEq, Repr

/-- Rust `Ord::cmp` on iterators / arrays / slices: lexicographic
element-wise comparison, a strict prefix comparing less. -/
def cmpList : List Nat → List Nat → Ordering
  | [], [] => .eq
  | [], _ :: _ => .lt
  | _ :: _, [] => .gt
  | x :: xs, y :: ys => (compare x y).then (cmpList xs ys)

/-- `impl Ord for Piece` (piece.rs lines 12-23): compare peer-set sizes,
then the peer-set iteration orders, then hash, length, and piece index. -/
def Piece.cmp (p other : Piece) : Ordering :=
  ((((compare p.peers.length other.peers.length).then
      (cmpList p.peers other.peers)).then
      (cmpList p.hash other.hash)).then
      (compare p.length other.length)).then
      (compare p.piece_i other.piece_i)

/-- `Piece::new` (piece.rs lines 32-57): the last piece takes the total
length's remainder modulo the piece length (or a full piece when it
divides evenly); the peer set is the indices of the peers whose bitfield
has the piece. (Rust indexes `t.info.pieces.0[piece_i]`, which panics
out of range; the embedding totalizes the hash lookup with a default,
and the claims only use in-range indices.) -/
def Piece.new (piece_i : Nat) (t : torrent.Torrent) (peers : List peer.Peer) : Piece :=
  let piece_hash := t.info.pieces.getD piece_i []
  let piece_size :=
    if piece_i = t.info.pieces.length - 1 then
      let md := t.length % t.info.plength
      if md = 0 then t.info.plength else md
    else t.info.plength
  let peer_set := (peers.enum.filterMap fun pe =>
    if pe.2.has_piece piece_i then some pe.1 else none)
  { peers := peer_set, piece_i := piece_i, length := piece_size, hash := piece_hash }

/-- `BinaryHeap::pop` on a max-heap returns a greatest element under
`Ord`; the embedding folds over the heap's contents keeping the
greater. -/
def popMax (l : List Piece) : Option Piece :=
  l.foldl
    (fun acc p =>
      match acc with
      | none => some p
      | some q => if Piece.cmp p q = .gt then some p else some q)
    none

end piece

namespace download

/-- Rust slice assignment `buf[start..][..src.len()].copy_from_slice(src)`:
`none` models the panic when the range falls outside the buffer. -/
def copy_from_slice_at (buf : List Nat) (start : Nat) (src : List Nat) : Option (List Nat) :=
  if start + src.length ≤ buf.length then
    some (buf.take start ++ src ++ buf.drop (start + src.length))
  else
    none

/-- The number of blocks for a piece (download.rs line 61):
`(piece_size + (BLOCK_MAX - 1)) / BLOCK_MAX` rounds up. -/
def nblocksOf (piece_size : Nat) : Nat :=
  (piece_size + (BLOCK_MAX - 1)) / BLOCK_MAX

/-- Errors the per-piece portion of `download::all` can surface:
`panic` models `expect` / `assert!` aborts, `noPeersLeftForPiece`
models `anyhow::bail!("no peers left to get piece {}")`. -/
inductive DownloadError where
  | panic (msg : String)
  | noPeersLeftForPiece (i : Nat)
deriving DecidableEq, Repr

/-- The coordinator receive loop (download.rs lines 92-141) over the
sequence of messages the completion channel delivers before it closes:
each message is parsed as a wire `Piece`, its block is copied at its
`begin` offset, and the loop breaks as soon as `bytes_received` equals
the piece size; exhausting the list models the channel closing. -/
def recvLoop (piece_size : Nat) (msgs : List peer.Message) (all_blocks : List Nat)
    (bytes_received : Nat) : Option (List Nat × Nat) :=
  match msgs with
  | [] => some (all_blocks, bytes_received)
  | msg :: rest =>
    match peer.Piece.ref_from_bytes msg.payload with
    | none => none
    | some piece =>
      let bytes_received := bytes_received + piece.block.length
      match copy_from_slice_at all_blocks piece.begin piece.block with
      | none => none
      | some all_blocks =>
        if bytes_received = piece_size then some (all_blocks, bytes_received)
        else recvLoop piece_size rest all_blocks bytes_received

/-- The per-piece tail of `download::all` (download.rs lines 92-161),
parameterized over the external SHA-1 function: run the receive loop on
a zeroed piece buffer; if the channel closed early, fail with
`noPeersLeftForPiece`; otherwise the assembled buffer's hash must equal
the expected piece hash (`assert_eq!`, a panic on mismatch) before the
piece is copied into the output buffer at `piece_i * plength`. -/
def pieceStep (sha1 : List Nat → List Nat) (piece_i piece_size plength : Nat)
    (piece_hash : List Nat) (msgs : List peer.Message) (all_pieces : List Nat) :
    Except DownloadError (List Nat) :=
  match recvLoop piece_size msgs (List.replicate piece_size 0) 0 with
  | none => .error (.panic "receive loop")
  | some (all_blocks, bytes_received) =>
    if bytes_received = piece_size then
      if sha1 all_blocks = piece_hash then
        match copy_from_slice_at all_pieces (piece_i * plength) all_blocks with
        | some all_pieces => .ok all_pieces
        | none => .error (.panic "copy into output buffer")
      else .error (.panic "assert failed: piece hash mismatch")
    else .error (.noPeersLeftForPiece piece_i)

end download

/-!
Claim theorems.
-/

/-- A piece descriptor with three peers, all other fields shared with
`pieceWithFivePeers`. -/
def pieceWithThreePeers : piece.Piece :=
  { peers := [0, 1, 2], piece_i := 0, length := 100, hash := List.replicate 20 0 }

/-- A piece descriptor with five peers, all other fields shared with
`pieceWithThreePeers`. -/
def pieceWithFivePeers : piece.Piece :=
  { peers := [0, 1, 2, 3, 4], piece_i := 0, length := 100, hash := List.replicate 20 0 }

/-- C1 counterexample: with peer-set sizes 3 and 5 and no other
differences, the piece with fewer peers compares LESS, not greater, and
the max-heap pop yields the five-peer piece, not the three-peer one. -/
theorem c1_counterexample :
    piece.Piece.cmp pieceWithThreePeers pieceWithFivePeers ≠ Ordering.gt ∧
    piece.Piece.cmp pieceWithThreePeers pieceWithFivePeers = Ordering.lt ∧
    piece.popMax [pieceWithThreePeers, pieceWithFivePeers] ≠ some pieceWithThreePeers ∧
    piece.popMax [pieceWithThreePeers, pieceWithFivePeers] = some pieceWithFivePeers := by
  refine ⟨by decide, by decide, by decide, by decide⟩

/-- C1 (amended): the ordering on pieces compares peer-set cardinality
ascending WITHOUT inversion, so the piece with strictly fewer peers
compares less and the max-heap yields the piece with MORE peers first;
with peer-set sizes 3 and 5 and no other differences the size-5 piece is
popped first. -/
theorem c1_piece_ordering_amended :
    (∀ p q : piece.Piece, p.peers.length < q.peers.length →
      piece.Piece.cmp p q = Ordering.lt ∧ piece.Piece.cmp q p = Ordering.gt) ∧
    piece.popMax [pieceWithThreePeers, pieceWithFivePeers] = some pieceWithFivePeers := by
  refine ⟨fun p q h => ?_, by decide⟩
  have hlt : compare p.peers.length q.peers.length = Ordering.lt := Nat.compare_eq_lt.mpr h
  have hgt : compare q.peers.length p.peers.length = Ordering.gt := Nat.compare_eq_gt.mpr h
  constructor
  · simp [piece.Piece.cmp, hlt, Ordering.then]
  · simp [piece.Piece.cmp, hgt, Ordering.then]

/-- C1 witness: the amended ordering statement applied to the concrete
three-peer and five-peer descriptors. -/
theorem c1_witness :
    piece.Piece.cmp pieceWithThreePeers pieceWithFivePeers = Ordering.lt ∧
    piece.Piece.cmp pieceWithFivePeers pieceWithThreePeers = Ordering.gt :=
  c1_piece_ordering_amended.1 pieceWithThreePeers pieceWithFivePeers (by decide)

/-- C2: for every message whose tag is one of the nine known tags and
whose payload holds at most 65535 bytes, encoding succeeds and decoding
the encoded buffer returns exactly that message with the whole frame
consumed. -/
theorem c2_decode_encode (m : peer.Message) (h : m.payload.length ≤ 65535) :
    ∃ buf, peer.MessageFramer.encode m = .ok buf ∧
      peer.MessageFramer.decode buf = .ok (some m, []) := by
  have hMAX : peer.MAX = 65536 := rfl
  refine ⟨_, peer.MessageFramer.encode_ok m (by omega), ?_⟩
  exact peer.MessageFramer.decode_encode_frame m.tag m.payload (by omega)

/-- C2 witness: the round trip at a concrete `Have` message. -/
theorem c2_witness :
    ∃ buf, peer.MessageFramer.encode { tag := .Have, payload := [0, 0, 0, 5] } = .ok buf ∧
      peer.MessageFramer.decode buf =
        .ok (some { tag := .Have, payload := [0, 0, 0, 5] }, []) :=
  c2_decode_encode { tag := .Have, payload := [0, 0, 0, 5] } (by decide)

/-- C9: a 4-byte zero length marker is silently consumed and decoding
continues at the following byte; any number of consecutive keep-alives
is skipped the same way; and a keep-alive followed by a valid encoded
frame decodes to exactly that frame. -/
theorem c9_keepalive_skipped :
    (∀ buf, peer.MessageFramer.decode (0 :: 0 :: 0 :: 0 :: buf) =
      peer.MessageFramer.decode buf) ∧
    (∀ k buf, peer.MessageFramer.decode (List.replicate (4 * k) 0 ++ buf) =
      peer.MessageFramer.decode buf) ∧
    (∀ m : peer.Message, m.payload.length ≤ 65535 →
      ∃ buf, peer.MessageFramer.encode m = .ok buf ∧
        peer.MessageFramer.decode (0 :: 0 :: 0 :: 0 :: buf) = .ok (some m, [])) := by
  refine ⟨peer.MessageFramer.decode_keepalive, fun k => ?_, fun m h => ?_⟩
  · induction k with
    | zero => simp
    | succ n ih =>
      intro buf
      have hrep : 4 * (n + 1) = 4 + 4 * n := by ring
      rw [hrep, List.replicate_add, List.append_assoc]
      have h4 : List.replicate 4 0 ++ (List.replicate (4 * n) 0 ++ buf) =
          0 :: 0 :: 0 :: 0 :: (List.replicate (4 * n) 0 ++ buf) := rfl
      rw [h4, peer.MessageFramer.decode_keepalive, ih]
  · have hMAX : peer.MAX = 65536 := rfl
    refine ⟨_, peer.MessageFramer.encode_ok m (by omega), ?_⟩
    rw [peer.MessageFramer.decode_keepalive]
    exact peer.MessageFramer.decode_encode_frame m.tag m.payload (by omega)

/-- C9 witness: a keep-alive followed by the encoded concrete `Have`
frame decodes to exactly that frame. -/
theorem c9_witness :
    ∃ buf, peer.MessageFramer.encode { tag := .Have, payload := [0, 0, 0, 5] } = .ok buf ∧
      peer.MessageFramer.decode (0 :: 0 :: 0 :: 0 :: buf) =
        .ok (some { tag := .Have, payload := [0, 0, 0, 5] }, []) :=
  c9_keepalive_skipped.2.2 { tag := .Have, payload := [0, 0, 0, 5] } (by decide)

/-- C6: in the request-wait phase for block `b`, a protocol-conformant
`Choke` (empty payload) sets the choked flag, resubmits `b` to the work
channel, and returns control to the top of the task loop, which with the
choked flag set enters the choked wait loop; the block is still in the
work queue. -/
theorem c6_choke_resubmits_block (st : peer.ParticipateState)
    (piece_i piece_size nblocks block : Nat) :
    peer.onMessageAwaitingPiece st piece_i piece_size nblocks block
        { tag := .Choke, payload := [] } =
      .continueTask { choked := true, workQueue := st.workQueue ++ [block] } ∧
    block ∈ st.workQueue ++ [block] ∧
    peer.taskLoopEntry { choked := true, workQueue := st.workQueue ++ [block] } =
      .chokedWait := by
  exact ⟨rfl, by simp, rfl⟩

/-- C10: `Piece::ref_from_bytes` is total: inputs shorter than 8 bytes
yield `none`, and on inputs of at least 8 bytes it yields a view whose
index is the big-endian u32 of bytes 0..4, whose begin is the big-endian
u32 of bytes 4..8, and whose block is exactly the remaining bytes. -/
theorem c10_ref_from_bytes_total (data : List Nat) :
    (data.length < 8 → peer.Piece.ref_from_bytes data = none) ∧
    (8 ≤ data.length → peer.Piece.ref_from_bytes data =
      some { index := be32 (data.take 4), begin := be32 ((data.drop 4).take 4),
             block := data.drop 8 }) := by
  have hlead : peer.Piece.PIECE_LEAD = 8 := rfl
  constructor
  · intro h
    rw [peer.Piece.ref_from_bytes, if_pos (by omega)]
  · intro h
    rw [peer.Piece.ref_from_bytes, if_neg (by omega), hlead]

/-- C10 witness: the claim applied at a 10-byte input and at a 3-byte
input. -/
theorem c10_witness :
    peer.Piece.ref_from_bytes [0, 0, 0, 1, 0, 0, 0, 2, 7, 8] =
      some { index := 1, begin := 2, block := [7, 8] } ∧
    peer.Piece.ref_from_bytes [1, 2, 3] = none := by
  constructor
  · have h := (c10_ref_from_bytes_total [0, 0, 0, 1, 0, 0, 0, 2, 7, 8]).2 (by decide)
    rw [h]
    decide
  · exact (c10_ref_from_bytes_total [1, 2, 3]).1 (by decide)

/-- The mask `1u8.rotate_right(bit + 1)` is the single bit `7 - bit` for
`bit < 8`. -/
theorem u8RotateRight_one (b : Nat) (hb : b < 8) :
    peer.u8RotateRight 1 (b + 1) = 2 ^ (7 - b) := by
  interval_cases b <;> rfl

/-- Testing a byte against a single-bit mask agrees with shifting the
bit down and masking with 1. -/
theorem and_two_pow_ne_zero (b j : Nat) : (b &&& 2 ^ j ≠ 0) ↔ ((b >>> j) &&& 1 ≠ 0) := by
  have h1 : b &&& 2 ^ j = (b.testBit j).toNat * 2 ^ j := Nat.and_two_pow b j
  have h2 : (b >>> j) &&& 1 = (b >>> j) % 2 := Nat.and_one_is_mod _
  have h3 : b >>> j = b / 2 ^ j := Nat.shiftRight_eq_div_pow b j
  have h4 : b.testBit j = decide (b / 2 ^ j % 2 = 1) := Nat.testBit_to_div_mod
  rw [h1, h2, h3, h4]
  by_cases h : b / 2 ^ j % 2 = 1 <;> simp [h]

/-- C5: `has_piece(i)` reads bit `7 - (i mod 8)` of payload byte `i / 8`
(equivalently `(payload[i / 8] >>> (7 - i mod 8)) &&& 1 ≠ 0`), returns
false when byte `i / 8` is out of range, and on the concrete payload
`[0b10101010, 0b01010101]` reports exactly {0, 2, 4, 6, 9, 11, 13, 15}
as held. -/
theorem c5_has_piece (payload : List Nat) (i : Nat) :
    (∀ h : i / 8 < payload.length,
      peer.Bitfield.has_piece { payload := payload } i =
        ((payload.get ⟨i / 8, h⟩ >>> (7 - i % 8)) &&& 1 != 0)) ∧
    (payload.length ≤ i / 8 → peer.Bitfield.has_piece { payload := payload } i = false) ∧
    (∀ j : Nat, peer.Bitfield.has_piece { payload := [170, 85] } j = true ↔
      j ∈ [0, 2, 4, 6, 9, 11, 13, 15]) := by
  refine ⟨fun h => ?_, fun h => ?_, fun j => ?_⟩
  · simp only [peer.Bitfield.has_piece, List.get?_eq_get h]
    have hmask := u8RotateRight_one (i % 8) (Nat.mod_lt i (by norm_num))
    rw [hmask, Bool.eq_iff_iff]
    simp only [bne_iff_ne, ne_eq]
    exact and_two_pow_ne_zero (payload.get ⟨i / 8, h⟩) (7 - i % 8)
  · have hnone : payload.get? (i / 8) = none := List.get?_eq_none.mpr h
    simp only [peer.Bitfield.has_piece, hnone]
  · by_cases hj : j < 16
    · interval_cases j <;> decide
    · have hout : peer.Bitfield.has_piece { payload := [170, 85] } j = false := by
        have hnone : ([170, 85] : List Nat).get? (j / 8) = none := by
          apply List.get?_eq_none.mpr
          simp only [List.length_cons, List.length_nil]
          omega
        simp only [peer.Bitfield.has_piece, hnone]
      rw [hout]
      simp only [List.mem_cons, List.not_mem_nil, or_false]
      constructor
      · intro hft
        exact absurd hft Bool.false_ne_true
      · intro hmem
        exfalso
        rcases hmem with h | h | h | h | h | h | h | h <;> omega

/-- C5 witness: the bit formula at index 2 of the concrete payload and
the out-of-range rule at index 99. -/
theorem c5_witness :
    (peer.Bitfield.has_piece { payload := [170, 85] } 2 =
      ((170 >>> (7 - 2 % 8)) &&& 1 != 0)) ∧
    (peer.Bitfield.has_piece { payload := [170, 85] } 99 = false) := by
  constructor
  · exact (c5_has_piece [170, 85] 2).1 (by decide)
  · exact (c5_has_piece [170, 85] 99).2.1 (by decide)

/-- C3: with total length T, piece length P > 0, and n pieces where
(n-1)*P < T ≤ n*P, the descriptor built for the last piece has length
T - (n-1)*P, every other piece descriptor has length P, and the last
length lies in (0, P]. -/
theorem c3_piece_lengths (t : torrent.Torrent) (peers : List peer.Peer) (n T P : Nat)
    (hn : n = t.info.pieces.length) (hT : T = t.length) (hP : P = t.info.plength)
    (hP0 : 0 < P) (hn0 : 0 < n) (hlo : (n - 1) * P < T) (hhi : T ≤ n * P) :
    (piece.Piece.new (n - 1) t peers).length = T - (n - 1) * P ∧
    (∀ i, i < n - 1 → (piece.Piece.new i t peers).length = P) ∧
    (0 < T - (n - 1) * P ∧ T - (n - 1) * P ≤ P) := by
  have harith : (if T % P = 0 then P else T % P) = T - (n - 1) * P := by
    by_cases h0 : T % P = 0
    · rw [if_pos h0]
      have hdm := Nat.div_add_mod T P
      have hq : n - 1 < T / P := by
        by_contra hc
        push_neg at hc
        have hmul : P * (T / P) ≤ P * (n - 1) := mul_le_mul_left' hc P
        have hcomm : (n - 1) * P = P * (n - 1) := Nat.mul_comm _ _
        omega
      have hq2 : P * n ≤ P * (T / P) := mul_le_mul_left' (by omega) P
      have hcomm2 : n * P = P * n := Nat.mul_comm _ _
      have hcomm3 : (n - 1) * P = P * (n - 1) := Nat.mul_comm _ _
      have hsplit : P * n = P * (n - 1) + P := by
        have hn1 : n = (n - 1) + 1 := by omega
        calc P * n = P * ((n - 1) + 1) := by rw [← hn1]
        _ = P * (n - 1) + P := by ring
      omega
    · rw [if_neg h0]
      have hlt : T < n * P := by
        rcases Nat.lt_or_ge T (n * P) with h | h
        · exact h
        · exfalso
          have hTeq : T = n * P := by omega
          rw [hTeq] at h0
          exact h0 (Nat.mul_mod_left n P)
      have hdiv : T / P = n - 1 := by
        apply Nat.div_eq_of_lt_le (le_of_lt hlo)
        have hn1 : n - 1 + 1 = n := by omega
        rw [hn1]
        exact hlt
      have hdm := Nat.div_add_mod T P
      rw [hdiv] at hdm
      have hcomm : (n - 1) * P = P * (n - 1) := Nat.mul_comm _ _
      omega
  have hlast : (piece.Piece.new (n - 1) t peers).length = if T % P = 0 then P else T % P := by
    simp only [piece.Piece.new, ← hn, ← hT, ← hP, if_pos rfl]
    simp
  refine ⟨hlast.trans harith, fun i hi => ?_, ?_, ?_⟩
  · simp only [piece.Piece.new, ← hn, ← hP]
    rw [if_neg (by omega)]
  · rw [← harith]
    by_cases h0 : T % P = 0
    · rw [if_pos h0]
      exact hP0
    · rw [if_neg h0]
      omega
  · rw [← harith]
    by_cases h0 : T % P = 0
    · rw [if_pos h0]
    · rw [if_neg h0]
      exact le_of_lt (Nat.mod_lt T hP0)

/-- A concrete three-piece torrent: piece length 4, total length 10. -/
def witnessTorrent : torrent.Torrent :=
  { info := { name := "w", plength := 4, pieces := [[1], [2], [3]],
              keys := .SingleFile 10 } }

/-- C3 witness: on the concrete torrent the last piece descriptor has
length 10 - 2 * 4 = 2 and the first has length 4. -/
theorem c3_witness :
    (piece.Piece.new 2 witnessTorrent []).length = 10 - 2 * 4 ∧
    (piece.Piece.new 0 witnessTorrent []).length = 4 := by
  have h := c3_piece_lengths witnessTorrent [] 3 10 4 rfl rfl rfl (by decide) (by decide)
    (by decide) (by decide)
  exact ⟨h.1, h.2.1 0 (by decide)⟩

/-- C4: for a piece of positive length with the block count the download
driver computes, every block index below the count gets block size
`min(16384, piece_length - b * 16384)`, and the request built for it
carries `(begin, length) = (b * 16384, block size)` (piece and block
offsets are u32 values, whence the 2^32 bounds). -/
theorem c4_block_size (piece_i piece_size nblocks block : Nat) (hpos : 0 < piece_size)
    (hnb : nblocks = download.nblocksOf piece_size) (hb : block < nblocks) :
    peer.blockSize piece_size nblocks block
      = min BLOCK_MAX (piece_size - block * BLOCK_MAX) ∧
    (piece_i < 2 ^ 32 →
      (peer.participateRequest piece_i piece_size nblocks block).index = piece_i) ∧
    (piece_size ≤ 2 ^ 32 →
      (peer.participateRequest piece_i piece_size nblocks block).begin = block * BLOCK_MAX) ∧
    (peer.participateRequest piece_i piece_size nblocks block).length
      = peer.blockSize piece_size nblocks block := by
  have hBM : BLOCK_MAX = 16384 := rfl
  rw [download.nblocksOf, hBM] at hnb
  have hsize : peer.blockSize piece_size nblocks block
      = min BLOCK_MAX (piece_size - block * BLOCK_MAX) := by
    simp only [peer.blockSize, hBM]
    rw [Nat.min_def]
    split_ifs <;> omega
  refine ⟨hsize, fun hpi => ?_, fun hps => ?_, ?_⟩
  · simp only [peer.participateRequest, peer.Request.new]
    omega
  · simp only [peer.participateRequest, peer.Request.new, hBM]
    omega
  · simp only [peer.participateRequest, peer.Request.new, peer.blockSize, hBM]
    split_ifs <;> omega

/-- C4 witness: the single-peer serial scenario's last block (piece
length 40000, 3 blocks, block 2) gets size 7232 = min(16384, 40000 -
32768) and a request with begin 32768. -/
theorem c4_witness :
    peer.blockSize 40000 3 2 = min BLOCK_MAX (40000 - 2 * BLOCK_MAX) ∧
    (peer.participateRequest 1 40000 3 2).index = 1 ∧
    (peer.participateRequest 1 40000 3 2).begin = 2 * BLOCK_MAX ∧
    (peer.participateRequest 1 40000 3 2).length = peer.blockSize 40000 3 2 := by
  have h := c4_block_size 1 40000 3 2 (by decide) (by decide) (by decide)
  exact ⟨h.1, h.2.1 (by decide), h.2.2.1 (by decide), h.2.2.2⟩

/-- C7: if the coordinator's receive loop ends (completion channel
closed) with fewer bytes than the piece length, the piece fails with
`noPeersLeftForPiece` naming that piece; in particular when no block is
ever delivered (every peer exits before sending anything, e.g. all
disconnect before Unchoke) the failure for the first piece names piece
0. -/
theorem c7_no_peers_left :
    (∀ (sha1 : List Nat → List Nat) (piece_i piece_size plength : Nat)
       (piece_hash : List Nat) (msgs : List peer.Message) (all_pieces blocks : List Nat)
       (r : Nat),
      download.recvLoop piece_size msgs (List.replicate piece_size 0) 0 = some (blocks, r) →
      r ≠ piece_size →
      download.pieceStep sha1 piece_i piece_size plength piece_hash msgs all_pieces =
        .error (.noPeersLeftForPiece piece_i)) ∧
    (∀ (sha1 : List Nat → List Nat) (piece_size plength : Nat)
       (piece_hash all_pieces : List Nat), 0 < piece_size →
      download.pieceStep sha1 0 piece_size plength piece_hash [] all_pieces =
        .error (.noPeersLeftForPiece 0)) := by
  constructor
  · intro sha1 piece_i piece_size plength piece_hash msgs all_pieces blocks r hloop hr
    rw [download.pieceStep, hloop]
    simp only [if_neg hr]
  · intro sha1 piece_size plength piece_hash all_pieces hpos
    have hloop : download.recvLoop piece_size [] (List.replicate piece_size 0) 0 =
        some (List.replicate piece_size 0, 0) := rfl
    rw [download.pieceStep, hloop]
    simp only [if_neg (by omega : ¬ (0 = piece_size))]

/-- C7 witness: with no delivered blocks and piece size 5, piece 3 fails
with `noPeersLeftForPiece 3`, and the all-peers-gone-on-first-piece
scenario yields `noPeersLeftForPiece 0`. -/
theorem c7_witness :
    download.pieceStep (fun _ => []) 3 5 7 [9] [] [] =
      .error (.noPeersLeftForPiece 3) ∧
    download.pieceStep (fun _ => []) 0 5 7 [9] [] [] =
      .error (.noPeersLeftForPiece 0) := by
  constructor
  · exact c7_no_peers_left.1 (fun _ => []) 3 5 7 [9] [] [] (List.replicate 5 0) 0 (by decide)
      (by decide)
  · exact c7_no_peers_left.2 (fun _ => []) 5 7 [9] [] (by decide)

/-- C8: once the receive loop has assembled a full piece, the SHA-1 of
the assembled buffer is compared with the expected hash: a mismatch
aborts (the `assert_eq!` panic) and no output buffer is returned, and
any returned output buffer implies the hashes matched and is exactly the
old output buffer with the piece's bytes copied at offset
`piece_i * plength`. -/
theorem c8_hash_gate (sha1 : List Nat → List Nat) (piece_i piece_size plength : Nat)
    (piece_hash : List Nat) (msgs : List peer.Message) (all_pieces blocks : List Nat)
    (hloop : download.recvLoop piece_size msgs (List.replicate piece_size 0) 0 =
      some (blocks, piece_size)) :
    (sha1 blocks ≠ piece_hash →
      download.pieceStep sha1 piece_i piece_size plength piece_hash msgs all_pieces =
        .error (.panic "assert failed: piece hash mismatch")) ∧
    (∀ res, download.pieceStep sha1 piece_i piece_size plength piece_hash msgs all_pieces =
        .ok res →
      sha1 blocks = piece_hash ∧
      download.copy_from_slice_at all_pieces (piece_i * plength) blocks = some res) := by
  have hred : download.pieceStep sha1 piece_i piece_size plength piece_hash msgs all_pieces =
      if sha1 blocks = piece_hash then
        (match download.copy_from_slice_at all_pieces (piece_i * plength) blocks with
          | some out => Except.ok out
          | none => Except.error (.panic "copy into output buffer"))
      else Except.error (.panic "assert failed: piece hash mismatch") := by
    rw [download.pieceStep, hloop]
    simp
  constructor
  · intro hne
    rw [hred, if_neg hne]
  · intro res hok
    rw [hred] at hok
    by_cases heq : sha1 blocks = piece_hash
    · refine ⟨heq, ?_⟩
      rw [if_pos heq] at hok
      cases hcopy : download.copy_from_slice_at all_pieces (piece_i * plength) blocks with
      | none =>
        rw [hcopy] at hok
        simp at hok
      | some out =>
        rw [hcopy] at hok
        injection hok with hres
        rw [hres]
    · rw [if_neg heq] at hok
      simp at hok

/-- C8 witness: a one-byte piece assembled from one message, checked
against a mismatching hash, aborts with the hash-mismatch panic. -/
theorem c8_witness :
    download.pieceStep (fun _ => [7]) 0 1 1 [5]
        [{ tag := .Piece, payload := [0, 0, 0, 0, 0, 0, 0, 0, 9] }] [0] =
      .error (.panic "assert failed: piece hash mismatch") :=
  (c8_hash_gate (fun _ => [7]) 0 1 1 [5]
    [{ tag := .Piece, payload := [0, 0, 0, 0, 0, 0, 0, 0, 9] }] [0] [9]
    (by decide)).1 (by decide)
